import Mathlib

/-!  Formal model of the prompt-library backend (`src/backend/app.py`).

The SQLite tables `prompts`, `prompt_versions` and `prompt_embeddings` are
modelled as in-memory lists of rows; `AUTOINCREMENT` primary keys are
modelled by explicit counters.  Timestamps (`utc_now()`) are threaded into
each operation as an opaque string argument.  Embedding vectors are lists of
rationals (every IEEE float is a rational number); the scores computed by
`cosine_similarity` live in `ℝ` because of the square roots.  The external
Ollama embedding service (`embed_text`) is modelled as an oracle
`String → Option (List ℚ)`: `none` is the "service unavailable" outcome
that the Python function maps every exception to.  A mutation endpoint
either commits (`Except.ok` carrying the new database) or raises an
`HTTPException` before `conn.commit()`, in which case SQLite rolls the
open transaction back and the database is unchanged (`Except.error`).  -/

/-- Constant `EMBED_DIM = 768` from `app.py`; the fixed embedding dimension that the
spec says embedding records have.  The code never checks it. -/
def EMBED_DIM : Nat := 768

/-- A row of the `prompts` table. -/
structure PromptRow where
  id : Nat
  name : String
  title : String
  category : String
  tags : String
  content : String
  vars : String
  current_version : Nat
  is_deleted : Bool
  created_at : String
  updated_at : String
deriving DecidableEq

/-- A row of the `prompt_versions` table. -/
structure VersionRow where
  id : Nat
  prompt_id : Nat
  version : Nat
  content : String
  change_note : String
  created_at : String
deriving DecidableEq

/-- A row of the `prompt_embeddings` table.  The BLOB column holds the
float32-packed vector; `pack_embedding`/`unpack_embedding` are inverse
bijections on it, so the row is modelled as holding the vector itself. -/
structure EmbeddingRow where
  prompt_id : Nat
  embedding : List ℚ
  content_hash : String
  updated_at : String
deriving DecidableEq

/-- The whole SQLite database.  `nextPromptId` and `nextVersionId` model the
two `AUTOINCREMENT` counters. -/
structure DB where
  prompts : List PromptRow
  versions : List VersionRow
  embeddings : List EmbeddingRow
  nextPromptId : Nat
  nextVersionId : Nat
deriving DecidableEq

/-- The database right after `init_db` on a fresh file. -/
def emptyDB : DB := ⟨[], [], [], 1, 1⟩

/-- HTTP error outcomes of the endpoints: 404, 409 and 503. -/
inductive ApiError where
  | notFound
  | conflict
  | serviceUnavailable
deriving DecidableEq

/-- The `PromptCreate` pydantic payload.  `variables` is an opaque
structured list, serialised on storage by `dumpsList`. -/
structure PromptCreate where
  name : String
  title : String
  category : String
  tags : List String
  content : String
  vars : List String
  change_note : String
deriving DecidableEq

/-- The `PromptUpdate` pydantic payload: every content field optional. -/
structure PromptUpdate where
  title : Option String
  category : Option String
  tags : Option (List String)
  content : Option String
  vars : Option (List String)
  change_note : String
deriving DecidableEq

/-- Serialisation `json.dumps` of the opaque `variables` list.  The claims never inspect
the serialised text, only whether the stored column changed. -/
def dumpsList (xs : List String) : String :=
  "[" ++ String.intercalate ", " xs ++ "]"

/-- Fingerprint `hashlib.md5(...).hexdigest()` from `_embed_prompt`, abstracted to an
arbitrary fingerprint function: no claim depends on hash values, only on
the `content_hash` column being written. -/
def md5Hex (s : String) : String := s

/-- The embedding oracle: `embed_text`.  `none` models every failure of the
external Ollama call (the Python code catches all exceptions and returns
`None`). -/
def EmbedOracle : Type := String → Option (List ℚ)

/-- The oracle of a permanently-unavailable embedding service. -/
def noneOracle : EmbedOracle := fun _ => none

/-- Upsert `INSERT ... ON CONFLICT(prompt_id) DO UPDATE` on `prompt_embeddings`:
replace the row if the key exists, append it otherwise. -/
def upsertEmbedding (pid : Nat) (emb : List ℚ) (hash now : String) (db : DB) : DB :=
  if db.embeddings.any (fun e => e.prompt_id == pid) then
    { db with embeddings := db.embeddings.map (fun e =>
        if e.prompt_id == pid then
          { e with embedding := emb, content_hash := hash, updated_at := now }
        else e) }
  else
    { db with embeddings := db.embeddings ++ [⟨pid, emb, hash, now⟩] }

/-- The text `_embed_prompt` sends to the embedding service:
`f"{name} ({category}): {tags}\n\n{content}"`. -/
def embedText (name category tags content : String) : String :=
  s!"{name} ({category}): {tags}\n\n{content}"

/-- Function `_embed_prompt`: builds the text, asks the oracle, and upserts one
`prompt_embeddings` row; on oracle failure it returns leaving the database
untouched. -/
def embed_prompt (oracle : EmbedOracle) (pid : Nat) (content name tags category now : String)
    (db : DB) : DB :=
  match oracle (embedText name category tags content) with
  | none => db
  | some emb => upsertEmbedding pid emb (md5Hex (embedText name category tags content)) now db

/-- Endpoint `GET /api/prompts/{id}` (`get_prompt`): `SELECT * FROM prompts WHERE
id = ? AND is_deleted = 0`; `none` is the 404 case. -/
def get_prompt (db : DB) (pid : Nat) : Option PromptRow :=
  db.prompts.find? (fun r => r.id == pid && !r.is_deleted)

/-- Endpoint `GET /api/prompts/by-name/{name}` (`get_prompt_by_name`). -/
def get_prompt_by_name (db : DB) (name : String) : Option PromptRow :=
  db.prompts.find? (fun r => r.name == name && !r.is_deleted)

/-- Check `SELECT id FROM prompts WHERE id = ?` from `get_versions`: note that the
existence check does NOT filter on `is_deleted`. -/
def promptRowExists (db : DB) (pid : Nat) : Bool :=
  (db.prompts.find? (fun r => r.id == pid)).isSome

/-- Descending order on version numbers, for `ORDER BY version DESC`. -/
def versionDesc (a b : VersionRow) : Prop := b.version ≤ a.version

instance : DecidableRel versionDesc := fun a b => Nat.decLe b.version a.version

/-- Endpoint `GET /api/prompts/{id}/versions` (`get_versions`). -/
def get_versions (db : DB) (pid : Nat) : Option (List VersionRow) :=
  if promptRowExists db pid then
    some ((db.versions.filter (fun v => v.prompt_id == pid)).insertionSort versionDesc)
  else none

/-- Endpoint `GET /api/prompts/{id}/versions/{version}` (`get_specific_version`):
no `is_deleted` filter, so versions of deleted prompts stay readable. -/
def get_specific_version (db : DB) (pid v : Nat) : Option VersionRow :=
  db.versions.find? (fun r => r.prompt_id == pid && r.version == v)

/-- Statement `UPDATE prompts SET ... WHERE id = ?`: rewrites every row whose `id`
matches (the primary key makes it unique in practice). -/
def updateRows (pid : Nat) (g : PromptRow → PromptRow) (l : List PromptRow) : List PromptRow :=
  l.map (fun r => if r.id = pid then g r else r)

/-- The document row that `create_prompt` INSERTs: fresh id, version 1,
not deleted, both timestamps set to now. -/
def createdRow (p : PromptCreate) (pid : Nat) (now : String) : PromptRow :=
  ⟨pid, p.name, p.title, p.category, String.intercalate ", " p.tags, p.content,
    dumpsList p.vars, 1, false, now, now⟩

/-- The committed transaction of `create_prompt`: one `prompts` row and one
`prompt_versions` row with version 1 and the payload's change note. -/
def createBase (p : PromptCreate) (now : String) (db : DB) : DB :=
  { db with
      prompts := db.prompts ++ [createdRow p db.nextPromptId now],
      versions := db.versions ++
        [⟨db.nextVersionId, db.nextPromptId, 1, p.content, p.change_note, now⟩],
      nextPromptId := db.nextPromptId + 1,
      nextVersionId := db.nextVersionId + 1 }

/-- Endpoint `POST /api/prompts` (`create_prompt`).  The `UNIQUE` constraint on
`name` raises `sqlite3.IntegrityError` → 409 when any row (deleted or not)
already carries the name; the open transaction is rolled back, so the error
case returns no database. -/
def create_prompt (oracle : EmbedOracle) (p : PromptCreate) (now : String) (db : DB) :
    Except ApiError (DB × Nat) :=
  if db.prompts.any (fun r => r.name == p.name) then
    .error .conflict
  else
    .ok (embed_prompt oracle db.nextPromptId p.content p.name
          (String.intercalate ", " p.tags) p.category now (createBase p now db),
        db.nextPromptId)

/-- Merge `", ".join(payload.tags)` when tags are supplied, the stored string
otherwise. -/
def mergeTags (p : PromptUpdate) (row : PromptRow) : String :=
  match p.tags with
  | some ts => String.intercalate ", " ts
  | none => row.tags

/-- Merge `json.dumps(payload.variables)` when supplied, the stored string
otherwise. -/
def mergeVars (p : PromptUpdate) (row : PromptRow) : String :=
  match p.vars with
  | some vs => dumpsList vs
  | none => row.vars

/-- The merged document row written by `update_prompt`: supplied fields
replace, omitted fields keep the stored value, and `current_version` is
bumped unconditionally. -/
def mergedRow (p : PromptUpdate) (row : PromptRow) (now : String) (q : PromptRow) : PromptRow :=
  { q with title := p.title.getD row.title,
           category := p.category.getD row.category,
           tags := mergeTags p row,
           content := p.content.getD row.content,
           vars := mergeVars p row,
           current_version := row.current_version + 1,
           updated_at := now }

/-- The committed transaction of `update_prompt`. -/
def updateBase (pid : Nat) (row : PromptRow) (p : PromptUpdate) (now : String) (db : DB) : DB :=
  { db with
      prompts := updateRows pid (mergedRow p row now) db.prompts,
      versions := db.versions ++
        [⟨db.nextVersionId, pid, row.current_version + 1, p.content.getD row.content,
          p.change_note, now⟩],
      nextVersionId := db.nextVersionId + 1 }

/-- Endpoint `PUT /api/prompts/{id}` (`update_prompt`): merge the optional payload
fields over the stored row, bump `current_version` unconditionally, append
one ledger row, then fire the embedding refresh. -/
def update_prompt (oracle : EmbedOracle) (pid : Nat) (p : PromptUpdate) (now : String)
    (db : DB) : Except ApiError (DB × Nat) :=
  match db.prompts.find? (fun r => r.id == pid && !r.is_deleted) with
  | none => .error .notFound
  | some row =>
      .ok (embed_prompt oracle pid (p.content.getD row.content) row.name (mergeTags p row)
            (p.category.getD row.category) now (updateBase pid row p now db), pid)

/-- The committed transaction of `restore_version`: the document row gets
the target version's content and a bumped `current_version`; the ledger
gains a row with the restored content and the auto-generated change note. -/
def restoreBase (pid v : Nat) (row : PromptRow) (vrow : VersionRow) (now : String)
    (db : DB) : DB :=
  { db with
      prompts := updateRows pid (fun q =>
        { q with content := vrow.content, current_version := row.current_version + 1,
                 updated_at := now }) db.prompts,
      versions := db.versions ++
        [⟨db.nextVersionId, pid, row.current_version + 1, vrow.content,
          s!"Restored from version {v}", now⟩],
      nextVersionId := db.nextVersionId + 1 }

/-- Endpoint `POST /api/prompts/{id}/restore/{version}` (`restore_version`): look up
the active prompt and the target ledger row, then write a new version with
the restored content.  No embedding refresh happens here in the source. -/
def restore_version (pid v : Nat) (now : String) (db : DB) : Except ApiError (DB × Nat) :=
  match db.prompts.find? (fun r => r.id == pid && !r.is_deleted) with
  | none => .error .notFound
  | some row =>
      match db.versions.find? (fun r => r.prompt_id == pid && r.version == v) with
      | none => .error .notFound
      | some vrow => .ok (restoreBase pid v row vrow now db, pid)

/-- The committed transaction of `delete_prompt`: flip `is_deleted`. -/
def deleteBase (pid : Nat) (now : String) (db : DB) : DB :=
  { db with prompts := updateRows pid (fun q =>
      { q with is_deleted := true, updated_at := now }) db.prompts }

/-- Endpoint `DELETE /api/prompts/{id}` (`delete_prompt`): soft delete. -/
def delete_prompt (pid : Nat) (now : String) (db : DB) : Except ApiError DB :=
  match db.prompts.find? (fun r => r.id == pid && !r.is_deleted) with
  | none => .error .notFound
  | some _ => .ok (deleteBase pid now db)

/-- Character-list version of `needle.isPrefixOf hay`. -/
def startsWithChars : List Char → List Char → Bool
  | [], _ => true
  | _ :: _, [] => false
  | c :: cs, d :: ds => c == d && startsWithChars cs ds

/-- Substring occurrence on character lists. -/
def occursIn (needle : List Char) : List Char → Bool
  | [] => startsWithChars needle []
  | d :: ds => startsWithChars needle (d :: ds) || occursIn needle ds

/-- SQLite `LIKE '%x%'`: case-insensitive (ASCII) substring containment. -/
def likeContains (hay needle : String) : Bool :=
  occursIn needle.toLower.toList hay.toLower.toList

/-- Truthiness check `if category:` in Python: a missing parameter or an empty string both
disable the filter. -/
def passesOpt (f : Option String) (test : String → Bool) : Bool :=
  match f with
  | none => true
  | some s => if s = "" then true else test s

/-- Descending order on `updated_at`, for `ORDER BY updated_at DESC`. -/
def updatedDesc (a b : PromptRow) : Prop := b.updated_at ≤ a.updated_at

instance : DecidableRel updatedDesc := fun a b =>
  inferInstanceAs (Decidable (b.updated_at ≤ a.updated_at))

/-- Endpoint `GET /api/prompts` (`list_prompts`): non-deleted rows, optional
category / tag / free-text filters, newest `updated_at` first. -/
def list_prompts (category tag search : Option String) (db : DB) : List PromptRow :=
  (db.prompts.filter (fun r =>
    !r.is_deleted
    && passesOpt category (fun c => r.category == c)
    && passesOpt tag (fun t => likeContains r.tags t)
    && passesOpt search (fun s =>
        likeContains r.name s || likeContains r.title s
          || likeContains r.content s || likeContains r.tags s))).insertionSort updatedDesc

/-- Expression `sum(x * y for x, y in zip(a, b))` from `cosine_similarity`. -/
def dotQ (a b : List ℚ) : ℚ := (List.zipWith (fun x y => x * y) a b).sum

/-- Expression `sum(x * x for x in a)`: the squared Euclidean norm. -/
def normSqQ (a : List ℚ) : ℚ := (a.map (fun x => x * x)).sum

/-- Function `cosine_similarity` from `app.py`: `dot / (na * nb)` with
`na = sqrt(sum squares)`, returning `0.0` when either norm is zero. -/
noncomputable def cosine_similarity (a b : List ℚ) : ℝ :=
  let dot : ℝ := (dotQ a b : ℚ)
  let na : ℝ := Real.sqrt ((normSqQ a : ℚ) : ℝ)
  let nb : ℝ := Real.sqrt ((normSqQ b : ℚ) : ℝ)
  if na = 0 ∨ nb = 0 then 0 else dot / (na * nb)

/-- Python `round(x, 4)`. -/
noncomputable def round4 (x : ℝ) : ℝ := (round (x * 10000) : ℤ) / 10000

/-- The `SemanticSearchRequest` payload.  Pydantic restricts `limit` to
`1..20` and `min_score` to `[0, 1]`; see `validRequest`. -/
structure SemanticSearchRequest where
  query : String
  limit : Nat
  min_score : ℚ

/-- The pydantic field constraints on `SemanticSearchRequest`. -/
def validRequest (p : SemanticSearchRequest) : Prop :=
  1 ≤ p.limit ∧ p.limit ≤ 20 ∧ 0 ≤ p.min_score ∧ p.min_score ≤ 1

/-- One element of the semantic-search response: the prompt with its
`score` field attached. -/
structure SearchItem where
  prompt : PromptRow
  score : ℝ

/-- The semantic-search response: truncated ranked results plus the
pre-truncation total. -/
structure SearchResponse where
  results : List SearchItem
  total : Nat

/-- Query `SELECT * FROM prompts WHERE is_deleted = 0`. -/
def activePrompts (db : DB) : List PromptRow :=
  db.prompts.filter (fun r => !r.is_deleted)

/-- The scoring loop of `semantic_search`: every embedding row whose
`prompt_id` resolves to an active prompt is scored, kept if the raw score
reaches `min_score`, and tagged with the rounded score. -/
noncomputable def searchScored (qemb : List ℚ) (minScore : ℚ) (db : DB) : List SearchItem :=
  db.embeddings.filterMap (fun e =>
    match (activePrompts db).find? (fun r => r.id == e.prompt_id) with
    | none => none
    | some p =>
        let score := cosine_similarity qemb e.embedding
        if (minScore : ℝ) ≤ score then some ⟨p, round4 score⟩ else none)

/-- Ordering `results.sort(key=lambda x: x["score"], reverse=True)`: descending
order on the stored (rounded) score. -/
def scoreDesc (a b : SearchItem) : Prop := b.score ≤ a.score

noncomputable instance : DecidableRel scoreDesc := fun a b =>
  inferInstanceAs (Decidable (b.score ≤ a.score))

instance : IsTotal SearchItem scoreDesc := ⟨fun a b => le_total b.score a.score⟩

instance : IsTrans SearchItem scoreDesc := ⟨fun _ _ _ hab hbc => le_trans hbc hab⟩

/-- Endpoint `POST /api/prompts/search/semantic` (`semantic_search`). -/
noncomputable def semantic_search (oracle : EmbedOracle) (payload : SemanticSearchRequest)
    (db : DB) : Except ApiError SearchResponse :=
  match oracle payload.query with
  | none => .error .serviceUnavailable
  | some qemb =>
      let scored := searchScored qemb payload.min_score db
      let sorted := scored.insertionSort scoreDesc
      .ok ⟨sorted.take payload.limit, scored.length⟩

/-- The response of `rebuild_embeddings`. -/
structure RebuildResult where
  embedded : Nat
  failed : Nat
  total : Nat
deriving DecidableEq

/-- Endpoint `POST /api/prompts/embeddings/rebuild` (`rebuild_embeddings`).  The
Python loop wraps `_embed_prompt(row...)` in `try/except`, counting
`embedded += 1` on normal return and `failed += 1` on an exception.
`_embed_prompt` returns normally when the embedding service fails
(`embed_text` catches every exception and returns `None`, and
`_embed_prompt` then returns early), so an embedding-service failure still
counts as `embedded`; only a storage-layer exception could reach the
`except` branch, and the model's storage writes cannot fail, exactly as a
healthy SQLite file's cannot.  Hence `failed` is the constant 0 here. -/
def rebuild_embeddings (oracle : EmbedOracle) (now : String) (db : DB) : DB × RebuildResult :=
  let rows := db.prompts.filter (fun r => !r.is_deleted)
  let out := rows.foldl (fun (acc : DB × Nat) r =>
    (embed_prompt oracle r.id r.content r.name r.tags r.category now acc.1, acc.2 + 1))
    (db, 0)
  (out.1, ⟨out.2, 0, rows.length⟩)

/-- The mutation endpoints as one alphabet of operations, for stating
invariants over arbitrary request sequences. -/
inductive Op where
  | create (p : PromptCreate) (now : String)
  | update (pid : Nat) (p : PromptUpdate) (now : String)
  | restore (pid v : Nat) (now : String)
  | delete (pid : Nat) (now : String)
deriving DecidableEq

/-- Run one request against the database: a failing request (rolled-back
transaction) leaves the database unchanged. -/
def applyOp (oracle : EmbedOracle) (db : DB) : Op → DB
  | .create p now =>
      match create_prompt oracle p now db with
      | .ok r => r.1
      | .error _ => db
  | .update pid p now =>
      match update_prompt oracle pid p now db with
      | .ok r => r.1
      | .error _ => db
  | .restore pid v now =>
      match restore_version pid v now db with
      | .ok r => r.1
      | .error _ => db
  | .delete pid now =>
      match delete_prompt pid now db with
      | .ok d => d
      | .error _ => db

/-- A whole request history applied to the fresh database. -/
def run (oracle : EmbedOracle) (ops : List Op) : DB :=
  ops.foldl (applyOp oracle) emptyDB

/-- The version numbers recorded in the ledger for one document. -/
def versionNums (db : DB) (pid : Nat) : List Nat :=
  (db.versions.filter (fun v => v.prompt_id == pid)).map (fun v => v.version)

/-! ### Basic lemmas about the model -/

theorem upsertEmbedding_prompts (pid : Nat) (emb : List ℚ) (hash now : String) (db : DB) :
    (upsertEmbedding pid emb hash now db).prompts = db.prompts := by
  unfold upsertEmbedding
  split <;> rfl

theorem upsertEmbedding_versions (pid : Nat) (emb : List ℚ) (hash now : String) (db : DB) :
    (upsertEmbedding pid emb hash now db).versions = db.versions := by
  unfold upsertEmbedding
  split <;> rfl

theorem upsertEmbedding_nextPromptId (pid : Nat) (emb : List ℚ) (hash now : String) (db : DB) :
    (upsertEmbedding pid emb hash now db).nextPromptId = db.nextPromptId := by
  unfold upsertEmbedding
  split <;> rfl

theorem upsertEmbedding_nextVersionId (pid : Nat) (emb : List ℚ) (hash now : String) (db : DB) :
    (upsertEmbedding pid emb hash now db).nextVersionId = db.nextVersionId := by
  unfold upsertEmbedding
  split <;> rfl

theorem embed_prompt_prompts (o : EmbedOracle) (pid : Nat) (c n t g now : String) (db : DB) :
    (embed_prompt o pid c n t g now db).prompts = db.prompts := by
  unfold embed_prompt
  split
  · rfl
  · rw [upsertEmbedding_prompts]

theorem embed_prompt_versions (o : EmbedOracle) (pid : Nat) (c n t g now : String) (db : DB) :
    (embed_prompt o pid c n t g now db).versions = db.versions := by
  unfold embed_prompt
  split
  · rfl
  · rw [upsertEmbedding_versions]

theorem embed_prompt_nextPromptId (o : EmbedOracle) (pid : Nat) (c n t g now : String) (db : DB) :
    (embed_prompt o pid c n t g now db).nextPromptId = db.nextPromptId := by
  unfold embed_prompt
  split
  · rfl
  · rw [upsertEmbedding_nextPromptId]

theorem embed_prompt_nextVersionId (o : EmbedOracle) (pid : Nat) (c n t g now : String) (db : DB) :
    (embed_prompt o pid c n t g now db).nextVersionId = db.nextVersionId := by
  unfold embed_prompt
  split
  · rfl
  · rw [upsertEmbedding_nextVersionId]

/-- The ledger's version numbers of one document, as a function of the
`prompt_versions` list alone. -/
def vnums (vs : List VersionRow) (pid : Nat) : List Nat :=
  (vs.filter (fun v => v.prompt_id == pid)).map (fun v => v.version)

theorem versionNums_eq_vnums (db : DB) (pid : Nat) : versionNums db pid = vnums db.versions pid :=
  rfl

theorem vnums_append (vs ws : List VersionRow) (pid : Nat) :
    vnums (vs ++ ws) pid = vnums vs pid ++ vnums ws pid := by
  simp [vnums, List.filter_append]

theorem vnums_single_eq {vr : VersionRow} {pid : Nat} (h : vr.prompt_id = pid) :
    vnums [vr] pid = [vr.version] := by
  simp [vnums, List.filter, h]

theorem vnums_single_ne {vr : VersionRow} {pid : Nat} (h : vr.prompt_id ≠ pid) :
    vnums [vr] pid = [] := by
  have hb : (vr.prompt_id == pid) = false := by simpa using h
  simp [vnums, List.filter, hb]

theorem vnums_nil {vs : List VersionRow} {pid : Nat} (h : ∀ vr ∈ vs, vr.prompt_id ≠ pid) :
    vnums vs pid = [] := by
  unfold vnums
  rw [List.filter_eq_nil_iff.mpr, List.map_nil]
  intro a ha
  simpa using h a ha

theorem mem_updateRows {pid : Nat} {g : PromptRow → PromptRow} {l : List PromptRow}
    {r' : PromptRow} (h : r' ∈ updateRows pid g l) :
    ∃ r ∈ l, r' = if r.id = pid then g r else r := by
  unfold updateRows at h
  obtain ⟨r, hr, hr'⟩ := List.mem_map.1 h
  exact ⟨r, hr, hr'.symm⟩

theorem updateRows_map {β : Type} {pid : Nat} {g : PromptRow → PromptRow}
    (f : PromptRow → β) (hf : ∀ r, f (g r) = f r) (l : List PromptRow) :
    (updateRows pid g l).map f = l.map f := by
  unfold updateRows
  rw [List.map_map]
  apply List.map_congr_left
  intro r _
  by_cases h : r.id = pid <;> simp [h, hf]

/-! ### The version-ledger invariant -/

/-- The inductive invariant of the database: primary keys and names are
unique, the autoincrement counter dominates every id in both tables, and
every document's ledger holds exactly the version numbers
`1 .. current_version`. -/
def DBInv (db : DB) : Prop :=
  (db.prompts.map (fun r => r.id)).Nodup ∧
  (db.prompts.map (fun r => r.name)).Nodup ∧
  (∀ r ∈ db.prompts, r.id < db.nextPromptId) ∧
  (∀ vr ∈ db.versions, vr.prompt_id < db.nextPromptId) ∧
  (∀ r ∈ db.prompts, 1 ≤ r.current_version ∧
      (versionNums db r.id).Perm (List.range' 1 r.current_version))

instance : DecidablePred DBInv := fun db => by
  unfold DBInv
  infer_instance

theorem inv_emptyDB : DBInv emptyDB := by decide

/-- What the `WHERE id = ? AND is_deleted = 0` lookup guarantees about a
row it returns. -/
theorem find_active_spec {db : DB} {pid : Nat} {r : PromptRow}
    (h : db.prompts.find? (fun q => q.id == pid && !q.is_deleted) = some r) :
    r ∈ db.prompts ∧ r.id = pid ∧ r.is_deleted = false := by
  have hm := List.mem_of_find?_eq_some h
  have hp := List.find?_some h
  simp only [Bool.and_eq_true, beq_iff_eq, Bool.not_eq_true'] at hp
  exact ⟨hm, hp.1, hp.2⟩

theorem dbinv_embed_iff (o : EmbedOracle) (pid : Nat) (c n t g now : String) (db : DB) :
    DBInv (embed_prompt o pid c n t g now db) ↔ DBInv db := by
  unfold DBInv
  simp only [versionNums_eq_vnums, embed_prompt_prompts, embed_prompt_versions,
    embed_prompt_nextPromptId]

theorem dbinv_createBase {db : DB} (h : DBInv db) {p : PromptCreate} {now : String}
    (hfresh : ∀ r ∈ db.prompts, r.name ≠ p.name) :
    DBInv (createBase p now db) := by
  obtain ⟨hids, hnames, hlt, hvlt, hled⟩ := h
  refine ⟨?_, ?_, ?_, ?_, ?_⟩
  · simp only [createBase, List.map_append]
    rw [List.nodup_append]
    refine ⟨hids, by simp [createdRow], ?_⟩
    intro a ha hb
    simp only [createdRow, List.map_cons, List.map_nil, List.mem_singleton] at hb
    obtain ⟨r, hr, hra⟩ := List.mem_map.1 ha
    have := hlt r hr
    omega
  · simp only [createBase, List.map_append]
    rw [List.nodup_append]
    refine ⟨hnames, by simp [createdRow], ?_⟩
    intro a ha hb
    simp only [createdRow, List.map_cons, List.map_nil, List.mem_singleton] at hb
    obtain ⟨r, hr, hra⟩ := List.mem_map.1 ha
    exact hfresh r hr (hra ▸ hb)
  · intro r hr
    simp only [createBase, List.mem_append, List.mem_singleton] at hr
    rcases hr with hr | hr
    · have := hlt r hr
      simp only [createBase]
      omega
    · subst hr
      simp [createdRow, createBase]
  · intro vr hvr
    simp only [createBase, List.mem_append, List.mem_singleton] at hvr
    rcases hvr with hvr | hvr
    · have := hvlt vr hvr
      simp only [createBase]
      omega
    · subst hvr
      simp [createBase]
  · intro r hr
    simp only [createBase, List.mem_append, List.mem_singleton] at hr
    rcases hr with hr | hr
    · have hold := hled r hr
      have hne : (⟨db.nextVersionId, db.nextPromptId, 1, p.content, p.change_note, now⟩ :
          VersionRow).prompt_id ≠ r.id := by
        have := hlt r hr
        simp only
        omega
      refine ⟨hold.1, ?_⟩
      rw [versionNums_eq_vnums] at hold ⊢
      simp only [createBase]
      rw [vnums_append, vnums_single_ne hne, List.append_nil]
      exact hold.2
    · subst hr
      constructor
      · simp [createdRow]
      · rw [versionNums_eq_vnums]
        simp only [createBase, createdRow]
        rw [vnums_append]
        rw [vnums_nil (fun vr hvr => by have := hvlt vr hvr; omega)]
        rw [vnums_single_eq rfl]
        simp [List.range']

/-- Invariant preservation for the shared shape of `update_prompt` and
`restore_version`: rewrite the matched row with a function that keeps id
and name and sets `current_version` to the found row's value plus one, and
append the matching ledger entry. -/
theorem dbinv_bump {db : DB} (h : DBInv db) {pid : Nat} {r₀ : PromptRow}
    (hf : db.prompts.find? (fun q => q.id == pid && !q.is_deleted) = some r₀)
    (g : PromptRow → PromptRow)
    (hid : ∀ q, (g q).id = q.id) (hname : ∀ q, (g q).name = q.name)
    (hcv : ∀ q, (g q).current_version = r₀.current_version + 1)
    (vid : Nat) (c note now : String) (nvi : Nat) :
    DBInv { db with prompts := updateRows pid g db.prompts,
                    versions := db.versions ++ [⟨vid, pid, r₀.current_version + 1, c, note, now⟩],
                    nextVersionId := nvi } := by
  obtain ⟨hids, hnames, hlt, hvlt, hled⟩ := h
  obtain ⟨hr₀mem, hr₀id, hr₀del⟩ := find_active_spec hf
  refine ⟨?_, ?_, ?_, ?_, ?_⟩
  · simpa only [updateRows_map (fun r => r.id) hid] using hids
  · simpa only [updateRows_map (fun r => r.name) hname] using hnames
  · intro r' hr'
    obtain ⟨r, hr, hr'eq⟩ := mem_updateRows hr'
    subst hr'eq
    by_cases hc : r.id = pid <;> simp only [hc, if_true, if_false, hid, reduceIte]
    · exact hr₀id ▸ hlt r₀ hr₀mem
    · exact hlt r hr
  · intro vr hvr
    simp only [List.mem_append, List.mem_singleton] at hvr
    rcases hvr with hvr | hvr
    · exact hvlt vr hvr
    · subst hvr
      simpa using hr₀id ▸ hlt r₀ hr₀mem
  · intro r' hr'
    obtain ⟨r, hr, hr'eq⟩ := mem_updateRows hr'
    subst hr'eq
    by_cases hc : r.id = pid
    · have hrr₀ : r = r₀ :=
        List.inj_on_of_nodup_map hids hr hr₀mem (by rw [hc, hr₀id])
      subst hrr₀
      simp only [hc, if_true, reduceIte]
      constructor
      · rw [hcv]
        omega
      · rw [versionNums_eq_vnums]
        simp only [hid, hcv, hc]
        rw [vnums_append, vnums_single_eq rfl]
        have hperm := (hled r hr).2
        rw [versionNums_eq_vnums] at hperm
        rw [hc] at hperm
        have hconcat : List.range' 1 (r.current_version + 1) =
            List.range' 1 r.current_version ++ [r.current_version + 1] := by
          rw [List.range'_1_concat, Nat.add_comm 1 r.current_version]
        rw [hconcat]
        exact hperm.append (List.Perm.refl _)
    · simp only [hc, if_false, reduceIte]
      have hne : pid ≠ r.id := fun hh => hc hh.symm
      refine ⟨(hled r hr).1, ?_⟩
      rw [versionNums_eq_vnums]
      simp only
      rw [vnums_append, vnums_single_ne hne, List.append_nil]
      have := (hled r hr).2
      rwa [versionNums_eq_vnums] at this

/-- Invariant preservation for `delete_prompt`: rewriting rows without
touching id, name or `current_version` and leaving the ledger alone. -/
theorem dbinv_mark {db : DB} (h : DBInv db) (pid : Nat) (g : PromptRow → PromptRow)
    (hid : ∀ q, (g q).id = q.id) (hname : ∀ q, (g q).name = q.name)
    (hcv : ∀ q, (g q).current_version = q.current_version) :
    DBInv { db with prompts := updateRows pid g db.prompts } := by
  obtain ⟨hids, hnames, hlt, hvlt, hled⟩ := h
  refine ⟨?_, ?_, ?_, ?_, ?_⟩
  · simpa only [updateRows_map (fun r => r.id) hid] using hids
  · simpa only [updateRows_map (fun r => r.name) hname] using hnames
  · intro r' hr'
    obtain ⟨r, hr, hr'eq⟩ := mem_updateRows hr'
    subst hr'eq
    have hb := hlt r hr
    by_cases hc : r.id = pid <;> simp only [hc, hid, reduceIte] <;> omega
  · exact hvlt
  · intro r' hr'
    obtain ⟨r, hr, hr'eq⟩ := mem_updateRows hr'
    subst hr'eq
    have hbase := hled r hr
    rw [versionNums_eq_vnums] at hbase
    by_cases hc : r.id = pid <;>
      simp only [hc, hid, hcv, reduceIte] <;>
      · rw [versionNums_eq_vnums]
        simpa only [hid, hc] using hbase

theorem dbinv_create_ok {oracle : EmbedOracle} {p : PromptCreate} {now : String} {db : DB}
    {out : DB × Nat} (h : DBInv db) (hc : create_prompt oracle p now db = .ok out) :
    DBInv out.1 := by
  unfold create_prompt at hc
  split at hc
  · exact absurd hc (by simp)
  · rename_i hany
    simp only [Except.ok.injEq] at hc
    subst hc
    simp only
    rw [dbinv_embed_iff]
    apply dbinv_createBase h
    intro r hr heq
    exact hany (List.any_eq_true.2 ⟨r, hr, by simp [heq]⟩)

theorem dbinv_update_ok {oracle : EmbedOracle} {pid : Nat} {p : PromptUpdate} {now : String}
    {db : DB} {out : DB × Nat} (h : DBInv db) (hc : update_prompt oracle pid p now db = .ok out) :
    DBInv out.1 := by
  unfold update_prompt at hc
  split at hc
  · exact absurd hc (by simp)
  · rename_i row hf
    simp only [Except.ok.injEq] at hc
    subst hc
    simp only
    rw [dbinv_embed_iff]
    unfold updateBase
    refine dbinv_bump h hf (mergedRow p row now) ?_ ?_ ?_ db.nextVersionId
      (p.content.getD row.content) p.change_note now (db.nextVersionId + 1)
    all_goals exact fun q => rfl

theorem dbinv_restore_ok {pid v : Nat} {now : String} {db : DB} {out : DB × Nat}
    (h : DBInv db) (hc : restore_version pid v now db = .ok out) : DBInv out.1 := by
  unfold restore_version at hc
  split at hc
  · exact absurd hc (by simp)
  · rename_i row hf
    split at hc
    · exact absurd hc (by simp)
    · rename_i vrow hv
      simp only [Except.ok.injEq] at hc
      subst hc
      simp only
      unfold restoreBase
      refine dbinv_bump h hf (fun q =>
          { q with content := vrow.content, current_version := row.current_version + 1,
                   updated_at := now }) ?_ ?_ ?_ db.nextVersionId vrow.content
        (s!"Restored from version {v}") now (db.nextVersionId + 1)
      all_goals exact fun q => rfl

theorem dbinv_delete_ok {pid : Nat} {now : String} {db : DB} {out : DB}
    (h : DBInv db) (hc : delete_prompt pid now db = .ok out) : DBInv out := by
  unfold delete_prompt at hc
  split at hc
  · exact absurd hc (by simp)
  · simp only [Except.ok.injEq] at hc
    subst hc
    unfold deleteBase
    exact dbinv_mark h pid _ (fun q => rfl) (fun q => rfl) (fun q => rfl)

/-- Every request, successful or rolled back, preserves the invariant. -/
theorem dbinv_applyOp (oracle : EmbedOracle) (op : Op) {db : DB} (h : DBInv db) :
    DBInv (applyOp oracle db op) := by
  cases op with
  | create p now =>
      simp only [applyOp]
      cases hc : create_prompt oracle p now db with
      | error e => exact h
      | ok out => exact dbinv_create_ok h hc
  | update pid p now =>
      simp only [applyOp]
      cases hc : update_prompt oracle pid p now db with
      | error e => exact h
      | ok out => exact dbinv_update_ok h hc
  | restore pid v now =>
      simp only [applyOp]
      cases hc : restore_version pid v now db with
      | error e => exact h
      | ok out => exact dbinv_restore_ok h hc
  | delete pid now =>
      simp only [applyOp]
      cases hc : delete_prompt pid now db with
      | error e => exact h
      | ok out => exact dbinv_delete_ok h hc

theorem dbinv_foldl (oracle : EmbedOracle) (ops : List Op) :
    ∀ db : DB, DBInv db → DBInv (ops.foldl (applyOp oracle) db) := by
  induction ops with
  | nil => exact fun db h => h
  | cons op rest ih =>
      intro db h
      exact ih _ (dbinv_applyOp oracle op h)

/-- The invariant holds after any request history on a fresh database. -/
theorem dbinv_run (oracle : EmbedOracle) (ops : List Op) : DBInv (run oracle ops) :=
  dbinv_foldl oracle ops emptyDB inv_emptyDB

/-! ### Claim C1 -/

/-- C1: For every document and every sequence of create/update/restore
(and delete) operations applied to a fresh store, the set of version
numbers in the document's Version Ledger is exactly
`{1, ..., current_version}` — no gaps, no duplicates (the ledger list is a
permutation of `[1..current_version]`) — and `current_version` is the
highest version number present in the ledger (it is a member and an upper
bound). -/
theorem ledger_versions_exactly_one_to_current (oracle : EmbedOracle) (ops : List Op)
    (r : PromptRow) (hr : r ∈ (run oracle ops).prompts) :
    1 ≤ r.current_version ∧
    (versionNums (run oracle ops) r.id).Perm (List.range' 1 r.current_version) ∧
    r.current_version ∈ versionNums (run oracle ops) r.id ∧
    ∀ v ∈ versionNums (run oracle ops) r.id, v ≤ r.current_version := by
  obtain ⟨-, -, -, -, hled⟩ := dbinv_run oracle ops
  obtain ⟨hpos, hperm⟩ := hled r hr
  refine ⟨hpos, hperm, ?_, ?_⟩
  · rw [hperm.mem_iff, List.mem_range']
    exact ⟨r.current_version - 1, by omega, by omega⟩
  · intro v hv
    rw [hperm.mem_iff, List.mem_range'] at hv
    obtain ⟨i, hi, hvi⟩ := hv
    omega

/-- A concrete history for the C1 witness: create with content "hello",
update it to "world", then restore version 1 (the spec's §8 example). -/
def opsC1 : List Op :=
  [.create ⟨"a", "T", "cat", ["x", "y"], "hello", [], "Initial version"⟩ "T0",
   .update 1 ⟨none, none, none, some "world", none, "Updated prompt"⟩ "T1",
   .restore 1 1 "T2"]

/-- The document row that `opsC1` produces. -/
def rowC1 : PromptRow := ⟨1, "a", "T", "cat", "x, y", "hello", "[]", 3, false, "T0", "T2"⟩

theorem ledger_versions_exactly_one_to_current_witness :
    1 ≤ rowC1.current_version ∧
    (versionNums (run noneOracle opsC1) rowC1.id).Perm (List.range' 1 rowC1.current_version) ∧
    rowC1.current_version ∈ versionNums (run noneOracle opsC1) rowC1.id ∧
    ∀ v ∈ versionNums (run noneOracle opsC1) rowC1.id, v ≤ rowC1.current_version :=
  ledger_versions_exactly_one_to_current noneOracle opsC1 rowC1 (by decide)

/-- Lookup `SELECT ... WHERE id = ? AND is_deleted = 0` commutes with an
`UPDATE ... WHERE id = ?` whose assignments touch neither `id` nor
`is_deleted`. -/
theorem find_active_updateRows (pid : Nat) (g : PromptRow → PromptRow)
    (hid : ∀ q, (g q).id = q.id) (hdel : ∀ q, (g q).is_deleted = q.is_deleted)
    (l : List PromptRow) :
    (updateRows pid g l).find? (fun q => q.id == pid && !q.is_deleted)
      = (l.find? (fun q => q.id == pid && !q.is_deleted)).map
          (fun q => if q.id = pid then g q else q) := by
  induction l with
  | nil => rfl
  | cons a l ih =>
      have hpred : ((if a.id = pid then g a else a).id == pid
            && !(if a.id = pid then g a else a).is_deleted)
          = (a.id == pid && !a.is_deleted) := by
        by_cases ha : a.id = pid <;> simp [ha, hid, hdel]
      unfold updateRows at ih ⊢
      simp only [List.map_cons, List.find?]
      rw [hpred]
      cases hpa : (a.id == pid && !a.is_deleted) with
      | true => rfl
      | false => exact ih

/-! ### Claim C2 -/

/-- C2: for every active document id and version `v` present in its
ledger, `restore(id, v)` succeeds, strictly increases `current_version` by
exactly one (whatever `v` is), and appends a new Version Entry whose
content equals `getVersion(id, v).content` with change note
`"Restored from version {v}"`; when `v` is absent from the ledger it fails
with NotFound. -/
theorem restore_bumps_and_copies_content :
    (∀ (db : DB) (pid v : Nat) (now : String) (r : PromptRow) (vr : VersionRow),
        get_prompt db pid = some r →
        get_specific_version db pid v = some vr →
        restore_version pid v now db = .ok (restoreBase pid v r vr now db, pid) ∧
        get_prompt (restoreBase pid v r vr now db) pid =
          some { r with content := vr.content, current_version := r.current_version + 1,
                        updated_at := now } ∧
        (restoreBase pid v r vr now db).versions =
          db.versions ++ [⟨db.nextVersionId, pid, r.current_version + 1, vr.content,
            s!"Restored from version {v}", now⟩]) ∧
    (∀ (db : DB) (pid v : Nat) (now : String) (r : PromptRow),
        get_prompt db pid = some r →
        get_specific_version db pid v = none →
        restore_version pid v now db = .error .notFound) := by
  constructor
  · intro db pid v now r vr hp hv
    unfold get_prompt at hp
    unfold get_specific_version at hv
    refine ⟨?_, ?_, ?_⟩
    · unfold restore_version
      rw [hp, hv]
    · unfold get_prompt restoreBase
      simp only
      rw [find_active_updateRows pid (fun q =>
            { q with content := vr.content, current_version := r.current_version + 1,
                     updated_at := now }) (fun q => rfl) (fun q => rfl)]
      rw [hp]
      obtain ⟨-, hrid, -⟩ := find_active_spec hp
      simp only [Option.map_some', hrid, if_true, reduceIte]
    · unfold restoreBase
      rfl
  · intro db pid v now r hp hv
    unfold get_prompt at hp
    unfold get_specific_version at hv
    unfold restore_version
    rw [hp, hv]

/-- A two-version document for the C2 witness. -/
def dbC2 : DB :=
  ⟨[⟨1, "a", "T", "c", "", "world", "[]", 2, false, "T0", "T1"⟩],
   [⟨1, 1, 1, "hello", "init", "T0"⟩, ⟨2, 1, 2, "world", "upd", "T1"⟩], [], 2, 3⟩

/-- The stored document row of `dbC2`. -/
def rowC2 : PromptRow := ⟨1, "a", "T", "c", "", "world", "[]", 2, false, "T0", "T1"⟩

/-- Version 1 of the document in `dbC2`. -/
def vrC2 : VersionRow := ⟨1, 1, 1, "hello", "init", "T0"⟩

theorem restore_bumps_and_copies_content_witness :
    (restore_version 1 1 "T2" dbC2 = .ok (restoreBase 1 1 rowC2 vrC2 "T2" dbC2, 1) ∧
     get_prompt (restoreBase 1 1 rowC2 vrC2 "T2" dbC2) 1 =
       some { rowC2 with content := vrC2.content,
                         current_version := rowC2.current_version + 1,
                         updated_at := "T2" } ∧
     (restoreBase 1 1 rowC2 vrC2 "T2" dbC2).versions =
       dbC2.versions ++ [⟨dbC2.nextVersionId, 1, rowC2.current_version + 1, vrC2.content,
         s!"Restored from version {(1 : Nat)}", "T2"⟩]) ∧
    restore_version 1 99 "T2" dbC2 = .error .notFound :=
  ⟨restore_bumps_and_copies_content.1 dbC2 1 1 "T2" rowC2 vrC2 (by decide) (by decide),
   restore_bumps_and_copies_content.2 dbC2 1 99 "T2" rowC2 (by decide) (by decide)⟩

/-- The existence check `SELECT id FROM prompts WHERE id = ?` is blind to
row rewrites that keep ids. -/
theorem find_id_isSome_updateRows (pid' pid : Nat) (g : PromptRow → PromptRow)
    (hid : ∀ q, (g q).id = q.id) (l : List PromptRow) :
    ((updateRows pid g l).find? (fun r => r.id == pid')).isSome
      = (l.find? (fun r => r.id == pid')).isSome := by
  induction l with
  | nil => rfl
  | cons a l ih =>
      have hpred : ((if a.id = pid then g a else a).id == pid') = (a.id == pid') := by
        by_cases ha : a.id = pid <;> simp [ha, hid]
      unfold updateRows at ih ⊢
      simp only [List.map_cons, List.find?]
      rw [hpred]
      cases hpa : (a.id == pid') with
      | true => rfl
      | false => exact ih

/-! ### Claim C3 -/

/-- C3: after a successful soft delete, the document is absent from
`list` under any filters, from `get`, from `getByName` and from search
results, while its Version Entries remain retrievable unchanged through
`getVersion` and `listVersions`. -/
theorem soft_delete_hides_but_keeps_versions
    {db db' : DB} {pid : Nat} {now : String} {r₀ : PromptRow}
    (hinv : DBInv db)
    (hg : get_prompt db pid = some r₀)
    (hd : delete_prompt pid now db = .ok db') :
    get_prompt db' pid = none ∧
    get_prompt_by_name db' r₀.name = none ∧
    (∀ category tag search, ∀ x ∈ list_prompts category tag search db', x.id ≠ pid) ∧
    (∀ (oracle : EmbedOracle) (payload : SemanticSearchRequest) (res : SearchResponse),
        semantic_search oracle payload db' = .ok res →
        ∀ item ∈ res.results, item.prompt.id ≠ pid) ∧
    (∀ v, get_specific_version db' pid v = get_specific_version db pid v) ∧
    get_versions db' pid = get_versions db pid := by
  unfold get_prompt at hg
  obtain ⟨hr₀mem, hr₀id, hr₀del⟩ := find_active_spec hg
  unfold delete_prompt at hd
  rw [hg] at hd
  simp only [Except.ok.injEq] at hd
  subst hd
  obtain ⟨hids, hnames, -, -, -⟩ := hinv
  have hmarked : ∀ x ∈ (deleteBase pid now db).prompts, x.id = pid → x.is_deleted = true := by
    intro x hx hxid
    obtain ⟨r, hr, hreq⟩ := mem_updateRows hx
    by_cases hc : r.id = pid
    · rw [hreq]
      simp [hc]
    · rw [hreq, if_neg hc] at hxid
      exact absurd hxid hc
  refine ⟨?_, ?_, ?_, ?_, fun v => rfl, ?_⟩
  · unfold get_prompt
    rw [List.find?_eq_none]
    intro x hx hb
    simp only [Bool.and_eq_true, beq_iff_eq, Bool.not_eq_true'] at hb
    rw [hmarked x hx hb.1] at hb
    exact absurd hb.2 (by simp)
  · unfold get_prompt_by_name
    rw [List.find?_eq_none]
    intro x hx hb
    simp only [Bool.and_eq_true, beq_iff_eq, Bool.not_eq_true'] at hb
    obtain ⟨r, hr, hreq⟩ := mem_updateRows hx
    by_cases hc : r.id = pid
    · rw [hreq] at hb
      simp [hc] at hb
    · have hxr : x = r := by rw [hreq, if_neg hc]
      subst hxr
      have hrr₀ : x = r₀ := List.inj_on_of_nodup_map hnames hr hr₀mem hb.1
      rw [hrr₀] at hc
      exact hc hr₀id
  · intro category tag search x hx heq
    rw [list_prompts, List.mem_insertionSort, List.mem_filter] at hx
    obtain ⟨hxmem, hpx⟩ := hx
    simp only [Bool.and_eq_true, Bool.not_eq_true'] at hpx
    have := hmarked x hxmem heq
    rw [this] at hpx
    exact absurd hpx.1.1.1 (by simp)
  · intro oracle payload res hres item hitem heq
    unfold semantic_search at hres
    split at hres
    · exact absurd hres (by simp)
    · rename_i qemb hq
      simp only [Except.ok.injEq] at hres
      subst hres
      simp only at hitem
      have hitem' := (List.mem_insertionSort scoreDesc).1 (List.mem_of_mem_take hitem)
      unfold searchScored at hitem'
      rw [List.mem_filterMap] at hitem'
      obtain ⟨e, he, hfe⟩ := hitem'
      cases hfind : (activePrompts (deleteBase pid now db)).find?
          (fun r => r.id == e.prompt_id) with
      | none =>
          rw [hfind] at hfe
          exact absurd hfe (by simp)
      | some p =>
          rw [hfind] at hfe
          simp only at hfe
          have hpactive := List.mem_of_find?_eq_some hfind
          rw [activePrompts, List.mem_filter] at hpactive
          split at hfe
          · simp only [Option.some.injEq] at hfe
            rw [← hfe] at heq
            simp only at heq
            have := hmarked p hpactive.1 heq
            rw [this] at hpactive
            exact absurd hpactive.2 (by simp)
          · exact absurd hfe (by simp)
  · unfold get_versions
    have hpe : promptRowExists (deleteBase pid now db) pid = promptRowExists db pid := by
      unfold promptRowExists deleteBase
      simp only
      exact find_id_isSome_updateRows pid pid
        (fun q => { q with is_deleted := true, updated_at := now }) (fun q => rfl) db.prompts
    rw [hpe]
    rfl

/-- A one-document database for the C3 witness. -/
def dbC3 : DB :=
  ⟨[⟨1, "a", "T", "c", "", "x", "[]", 1, false, "T0", "T0"⟩],
   [⟨1, 1, 1, "x", "n", "T0"⟩], [], 2, 2⟩

/-- The stored document row of `dbC3`. -/
def rowC3 : PromptRow := ⟨1, "a", "T", "c", "", "x", "[]", 1, false, "T0", "T0"⟩

theorem soft_delete_hides_but_keeps_versions_witness :
    get_prompt (deleteBase 1 "T1" dbC3) 1 = none ∧
    get_prompt_by_name (deleteBase 1 "T1" dbC3) rowC3.name = none ∧
    (∀ category tag search, ∀ x ∈ list_prompts category tag search (deleteBase 1 "T1" dbC3),
        x.id ≠ 1) ∧
    (∀ (oracle : EmbedOracle) (payload : SemanticSearchRequest) (res : SearchResponse),
        semantic_search oracle payload (deleteBase 1 "T1" dbC3) = .ok res →
        ∀ item ∈ res.results, item.prompt.id ≠ 1) ∧
    (∀ v, get_specific_version (deleteBase 1 "T1" dbC3) 1 v = get_specific_version dbC3 1 v) ∧
    get_versions (deleteBase 1 "T1" dbC3) 1 = get_versions dbC3 1 :=
  @soft_delete_hides_but_keeps_versions dbC3 (deleteBase 1 "T1" dbC3) 1 "T1" rowC3
    (by decide) (by decide) rfl

/-! ### Claim C4 -/

/-- C4: `create` fails with Conflict whenever the requested name equals
the name of any existing document — active or soft-deleted — and the
failing request leaves the database unchanged (the transaction is rolled
back before any row is committed). -/
theorem create_conflict_on_any_existing_name
    (oracle : EmbedOracle) (p : PromptCreate) (now : String) (db : DB)
    (h : ∃ r ∈ db.prompts, r.name = p.name) :
    create_prompt oracle p now db = .error .conflict ∧
    applyOp oracle db (.create p now) = db := by
  obtain ⟨r, hr, hname⟩ := h
  have hany : db.prompts.any (fun q => q.name == p.name) = true :=
    List.any_eq_true.2 ⟨r, hr, by simp [hname]⟩
  constructor
  · unfold create_prompt
    rw [if_pos hany]
  · simp only [applyOp]
    unfold create_prompt
    rw [if_pos hany]

/-- A database holding one soft-deleted document named "a", for the C4
witness: the name stays unusable even after deletion. -/
def dbC4 : DB :=
  ⟨[⟨1, "a", "T", "c", "", "x", "[]", 1, true, "T0", "T1"⟩],
   [⟨1, 1, 1, "x", "n", "T0"⟩], [], 2, 2⟩

/-- A create payload reusing the deleted document's name. -/
def cpC4 : PromptCreate := ⟨"a", "T2", "c", [], "y", [], "Initial version"⟩

theorem create_conflict_on_any_existing_name_witness :
    create_prompt noneOracle cpC4 "T2" dbC4 = .error .conflict ∧
    applyOp noneOracle dbC4 (.create cpC4 "T2") = dbC4 :=
  create_conflict_on_any_existing_name noneOracle cpC4 "T2" dbC4 (by decide)

/-! ### Claim C5 -/

/-- The database state `update_prompt` hands back on success. -/
def updateResultDB (oracle : EmbedOracle) (pid : Nat) (p : PromptUpdate) (r : PromptRow)
    (now : String) (db : DB) : DB :=
  embed_prompt oracle pid (p.content.getD r.content) r.name (mergeTags p r)
    (p.category.getD r.category) now (updateBase pid r p now db)

/-- C5: on an active document, `update` succeeds for every payload; each
omitted field keeps its prior value in the stored row, `current_version`
is incremented by exactly one, and a Version Entry is appended
unconditionally (the statement holds for every payload, including one
whose content equals the current content). -/
theorem update_retains_omitted_bumps_appends
    (oracle : EmbedOracle) (pid : Nat) (p : PromptUpdate) (now : String) (db : DB)
    (r : PromptRow) (hp : get_prompt db pid = some r) :
    update_prompt oracle pid p now db = .ok (updateResultDB oracle pid p r now db, pid) ∧
    get_prompt (updateResultDB oracle pid p r now db) pid = some (mergedRow p r now r) ∧
    (p.title = none → (mergedRow p r now r).title = r.title) ∧
    (p.category = none → (mergedRow p r now r).category = r.category) ∧
    (p.tags = none → (mergedRow p r now r).tags = r.tags) ∧
    (p.content = none → (mergedRow p r now r).content = r.content) ∧
    (p.vars = none → (mergedRow p r now r).vars = r.vars) ∧
    (mergedRow p r now r).current_version = r.current_version + 1 ∧
    (updateResultDB oracle pid p r now db).versions =
      db.versions ++ [⟨db.nextVersionId, pid, r.current_version + 1,
        p.content.getD r.content, p.change_note, now⟩] := by
  unfold get_prompt at hp
  obtain ⟨hrmem, hrid, hrdel⟩ := find_active_spec hp
  refine ⟨?_, ?_, ?_, ?_, ?_, ?_, ?_, rfl, ?_⟩
  · unfold update_prompt
    rw [hp]
    rfl
  · unfold get_prompt updateResultDB
    rw [embed_prompt_prompts]
    unfold updateBase
    simp only
    rw [find_active_updateRows pid (mergedRow p r now) (fun q => rfl) (fun q => rfl)]
    rw [hp]
    simp only [Option.map_some', hrid, if_true, reduceIte]
  · intro h
    simp [mergedRow, h]
  · intro h
    simp [mergedRow, h]
  · intro h
    simp [mergedRow, mergeTags, h]
  · intro h
    simp [mergedRow, h]
  · intro h
    simp [mergedRow, mergeVars, h]
  · unfold updateResultDB
    rw [embed_prompt_versions]
    rfl

/-- A one-document database for the C5 witness. -/
def dbC5 : DB :=
  ⟨[⟨1, "a", "T", "c", "", "x", "[]", 1, false, "T0", "T0"⟩],
   [⟨1, 1, 1, "x", "n", "T0"⟩], [], 2, 2⟩

/-- The stored document row of `dbC5`. -/
def rowC5 : PromptRow := ⟨1, "a", "T", "c", "", "x", "[]", 1, false, "T0", "T0"⟩

/-- An update payload whose supplied content equals the stored content and
which omits every other field: the "no-op content" case of C5. -/
def upC5 : PromptUpdate := ⟨none, none, none, some "x", none, "Updated prompt"⟩

theorem update_retains_omitted_bumps_appends_witness :
    update_prompt noneOracle 1 upC5 "T1" dbC5 =
      .ok (updateResultDB noneOracle 1 upC5 rowC5 "T1" dbC5, 1) ∧
    get_prompt (updateResultDB noneOracle 1 upC5 rowC5 "T1" dbC5) 1 =
      some (mergedRow upC5 rowC5 "T1" rowC5) ∧
    (upC5.title = none → (mergedRow upC5 rowC5 "T1" rowC5).title = rowC5.title) ∧
    (upC5.category = none → (mergedRow upC5 rowC5 "T1" rowC5).category = rowC5.category) ∧
    (upC5.tags = none → (mergedRow upC5 rowC5 "T1" rowC5).tags = rowC5.tags) ∧
    (upC5.content = none → (mergedRow upC5 rowC5 "T1" rowC5).content = rowC5.content) ∧
    (upC5.vars = none → (mergedRow upC5 rowC5 "T1" rowC5).vars = rowC5.vars) ∧
    (mergedRow upC5 rowC5 "T1" rowC5).current_version = rowC5.current_version + 1 ∧
    (updateResultDB noneOracle 1 upC5 rowC5 "T1" dbC5).versions =
      dbC5.versions ++ [⟨dbC5.nextVersionId, 1, rowC5.current_version + 1,
        upC5.content.getD rowC5.content, upC5.change_note, "T1"⟩] :=
  update_retains_omitted_bumps_appends noneOracle 1 upC5 "T1" dbC5 rowC5 (by decide)

/-! ### Claim C8 -/

/-- The observable state and result of a mutation, stripped of the
embedding side effect: the documents, the ledger, and the returned id. -/
def mutationView (e : Except ApiError (DB × Nat)) :
    Except ApiError (List PromptRow × List VersionRow × Nat) :=
  e.map (fun x => (x.1.prompts, x.1.versions, x.2))

/-- C8: a failure of the external embedding call is never surfaced as a
mutation failure.  `create` and `update` return the same status, the same
document rows and the same ledger rows under any oracle as under the
always-failing one; `restore` never consults the oracle at all; and
`search` is the one endpoint that fails (503 service unavailable) when the
query cannot be embedded. -/
theorem embedding_failure_never_blocks_mutations (oracle : EmbedOracle) :
    (∀ (p : PromptCreate) (now : String) (db : DB),
        mutationView (create_prompt oracle p now db)
          = mutationView (create_prompt noneOracle p now db)) ∧
    (∀ (pid : Nat) (p : PromptUpdate) (now : String) (db : DB),
        mutationView (update_prompt oracle pid p now db)
          = mutationView (update_prompt noneOracle pid p now db)) ∧
    (∀ (pid v : Nat) (now : String) (db : DB),
        applyOp oracle db (.restore pid v now) = applyOp noneOracle db (.restore pid v now)) ∧
    (∀ (payload : SemanticSearchRequest) (db : DB),
        semantic_search noneOracle payload db = .error .serviceUnavailable) := by
  refine ⟨?_, ?_, fun pid v now db => rfl, fun payload db => rfl⟩
  · intro p now db
    unfold create_prompt
    split
    · rfl
    · simp only [mutationView, Except.map, embed_prompt_prompts, embed_prompt_versions]
  · intro pid p now db
    unfold update_prompt
    cases hf : db.prompts.find? (fun q => q.id == pid && !q.is_deleted) with
    | none => rfl
    | some row =>
        simp only [mutationView, Except.map, embed_prompt_prompts, embed_prompt_versions]

/-! ### Claim C9 -/

theorem dotQ_self (v : List ℚ) : dotQ v v = normSqQ v := by
  induction v with
  | nil => rfl
  | cons x xs ih =>
      simp only [dotQ, normSqQ, List.zipWith_cons_cons, List.map_cons, List.sum_cons] at ih ⊢
      rw [ih]

theorem normSqQ_nonneg (v : List ℚ) : 0 ≤ normSqQ v := by
  induction v with
  | nil => simp [normSqQ]
  | cons x xs ih =>
      simp only [normSqQ, List.map_cons, List.sum_cons] at ih ⊢
      have := mul_self_nonneg x
      linarith

/-- C9: `cosine_similarity(v, v) = 1` for every vector of non-zero norm
(exactly, in the real-number model of the float arithmetic), and
`cosine_similarity` returns exactly `0` whenever either argument has zero
norm. -/
theorem cosine_self_eq_one_and_zero_norm_eq_zero :
    (∀ v : List ℚ, normSqQ v ≠ 0 → cosine_similarity v v = 1) ∧
    (∀ a b : List ℚ, normSqQ a = 0 ∨ normSqQ b = 0 → cosine_similarity a b = 0) := by
  constructor
  · intro v hv
    have hpos : (0 : ℚ) < normSqQ v := lt_of_le_of_ne (normSqQ_nonneg v) (Ne.symm hv)
    have hposR : (0 : ℝ) < ((normSqQ v : ℚ) : ℝ) := by exact_mod_cast hpos
    have hsq : Real.sqrt ((normSqQ v : ℚ) : ℝ) ≠ 0 :=
      ne_of_gt (Real.sqrt_pos.2 hposR)
    unfold cosine_similarity
    rw [if_neg (by push_neg; exact ⟨hsq, hsq⟩)]
    rw [dotQ_self, Real.mul_self_sqrt hposR.le]
    exact div_self (ne_of_gt hposR)
  · intro a b h
    unfold cosine_similarity
    rcases h with h | h
    · rw [if_pos]
      left
      rw [h]
      push_cast
      exact Real.sqrt_zero
    · rw [if_pos]
      right
      rw [h]
      push_cast
      exact Real.sqrt_zero

theorem cosine_self_eq_one_and_zero_norm_eq_zero_witness :
    (normSqQ [1] ≠ 0 ∧ cosine_similarity [1] [1] = 1) ∧
    (normSqQ [0] = 0 ∨ normSqQ [1] = 0) ∧ cosine_similarity [0] [1] = 0 :=
  ⟨⟨by norm_num [normSqQ], cosine_self_eq_one_and_zero_norm_eq_zero.1 [1] (by norm_num [normSqQ])⟩,
   Or.inl (by norm_num [normSqQ]),
   cosine_self_eq_one_and_zero_norm_eq_zero.2 [0] [1] (Or.inl (by norm_num [normSqQ]))⟩

/-! ### Claim C6 -/

/-- The document returned by the C6 search scenario. -/
def rowC6 : PromptRow := ⟨1, "a", "T", "c", "", "hello", "[]", 1, false, "T0", "T0"⟩

/-- One active document whose stored embedding is `[5, 12]` (so its norm
is exactly 13 and its cosine against `[1, 0]` is exactly `5/13`). -/
def dbC6 : DB := ⟨[rowC6], [], [⟨1, [5, 12], "h", "T0"⟩], 2, 1⟩

/-- An embedding service answering `[1, 0]` for every query. -/
def oracleC6 : EmbedOracle := fun _ => some [1, 0]

/-- Request with `min_score = 0.38461`: the raw score `5/13 ≈ 0.3846153` passes the
filter, but rounds down to `0.3846 < 0.38461`. -/
def payloadC6 : SemanticSearchRequest := ⟨"q", 5, 38461/100000⟩

theorem cosC6 : cosine_similarity [1, 0] [5, 12] = 5 / 13 := by
  have h1 : normSqQ [(1 : ℚ), 0] = 1 := by norm_num [normSqQ]
  have h2 : normSqQ [(5 : ℚ), 12] = 169 := by norm_num [normSqQ]
  have h3 : dotQ [(1 : ℚ), 0] [5, 12] = 5 := by norm_num [dotQ]
  unfold cosine_similarity
  rw [h1, h2, h3]
  have hs1 : Real.sqrt ((1 : ℚ) : ℝ) = 1 := by
    push_cast
    exact Real.sqrt_one
  have hs2 : Real.sqrt ((169 : ℚ) : ℝ) = 13 := by
    have h169 : ((169 : ℚ) : ℝ) = (13 : ℝ) ^ 2 := by norm_num
    rw [h169, Real.sqrt_sq (by norm_num)]
  rw [hs1, hs2]
  rw [if_neg (by norm_num)]
  push_cast
  norm_num

theorem round4C6 : round4 ((5 : ℝ) / 13) = 3846 / 10000 := by
  unfold round4
  have h1 : (5 : ℝ) / 13 * 10000 = ((50000 / 13 : ℚ) : ℝ) := by
    push_cast
    ring
  rw [h1, Rat.round_cast]
  norm_num [round_eq]

theorem scoredC6 : searchScored [1, 0] (38461/100000) dbC6 = [⟨rowC6, 3846 / 10000⟩] := by
  have hle : ((38461/100000 : ℚ) : ℝ) ≤ 5 / 13 := by
    push_cast
    norm_num
  unfold searchScored dbC6
  simp only [List.filterMap_cons, List.filterMap_nil]
  have hfind : (activePrompts ⟨[rowC6], [], [⟨1, [5, 12], "h", "T0"⟩], 2, 1⟩).find?
      (fun r => r.id == (⟨1, [5, 12], "h", "T0"⟩ : EmbeddingRow).prompt_id) = some rowC6 := rfl
  rw [hfind]
  simp only [cosC6]
  rw [if_pos hle]
  rw [round4C6]

/-- The C6 search scenario, fully evaluated. -/
theorem searchC6_eval :
    semantic_search oracleC6 payloadC6 dbC6 = .ok ⟨[⟨rowC6, 3846 / 10000⟩], 1⟩ := by
  unfold semantic_search
  have ho : oracleC6 payloadC6.query = some [1, 0] := rfl
  rw [ho]
  simp only [payloadC6]
  rw [scoredC6]
  rfl

/-- C6 counterexample: the search filters on the raw cosine score but
returns the score rounded to 4 digits, so a returned score can be
strictly below `min_score`.  Here the single returned item carries score
`0.3846 < 0.38461 = min_score`, for a pydantic-valid request. -/
theorem search_returned_score_below_min_counterexample :
    semantic_search oracleC6 payloadC6 dbC6 = .ok ⟨[⟨rowC6, 3846 / 10000⟩], 1⟩ ∧
    ((3846 : ℝ) / 10000) < ((payloadC6.min_score : ℚ) : ℝ) ∧
    validRequest payloadC6 := by
  refine ⟨searchC6_eval, ?_, ?_⟩
  · show ((3846 : ℝ) / 10000) < (((38461/100000 : ℚ) : ℚ) : ℝ)
    push_cast
    norm_num
  · refine ⟨by norm_num [payloadC6], by norm_num [payloadC6], by norm_num [payloadC6],
      by norm_num [payloadC6]⟩

/-- C6 (amended): every successful search response has at most `limit`
results, sorted in descending order of the returned score; each returned
item's raw cosine score is at least `min_score`, and the returned score
field is that raw score rounded to 4 decimal digits (which may dip below
`min_score` by less than `5·10⁻⁵`, as the counterexample shows). -/
theorem search_ranked_filtered_truncated (oracle : EmbedOracle)
    (payload : SemanticSearchRequest) (db : DB) (res : SearchResponse)
    (h : semantic_search oracle payload db = .ok res) :
    res.results.length ≤ payload.limit ∧
    List.Sorted scoreDesc res.results ∧
    (∀ item ∈ res.results, ∃ raw : ℝ,
        ((payload.min_score : ℚ) : ℝ) ≤ raw ∧ item.score = round4 raw) := by
  unfold semantic_search at h
  split at h
  · exact absurd h (by simp)
  · rename_i qemb hq
    simp only [Except.ok.injEq] at h
    subst h
    refine ⟨?_, ?_, ?_⟩
    · simp only
      exact List.length_take_le _ _
    · exact List.Pairwise.sublist (List.take_sublist _ _)
        (List.sorted_insertionSort scoreDesc _)
    · intro item hitem
      have h1 := (List.mem_insertionSort scoreDesc).1 (List.mem_of_mem_take hitem)
      unfold searchScored at h1
      rw [List.mem_filterMap] at h1
      obtain ⟨e, he, hfe⟩ := h1
      cases hfind : (activePrompts db).find? (fun r => r.id == e.prompt_id) with
      | none =>
          rw [hfind] at hfe
          exact absurd hfe (by simp)
      | some p =>
          rw [hfind] at hfe
          simp only at hfe
          split at hfe
          · rename_i hge
            simp only [Option.some.injEq] at hfe
            exact ⟨cosine_similarity qemb e.embedding, hge, by rw [← hfe]⟩
          · exact absurd hfe (by simp)

theorem search_ranked_filtered_truncated_witness :
    (⟨[⟨rowC6, 3846 / 10000⟩], 1⟩ : SearchResponse).results.length ≤ payloadC6.limit ∧
    List.Sorted scoreDesc (⟨[⟨rowC6, 3846 / 10000⟩], 1⟩ : SearchResponse).results ∧
    (∀ item ∈ (⟨[⟨rowC6, 3846 / 10000⟩], 1⟩ : SearchResponse).results, ∃ raw : ℝ,
        ((payloadC6.min_score : ℚ) : ℝ) ≤ raw ∧ item.score = round4 raw) :=
  search_ranked_filtered_truncated oracleC6 payloadC6 dbC6 ⟨[⟨rowC6, 3846 / 10000⟩], 1⟩
    searchC6_eval

/-! ### Claim C10 -/

/-- Truncation by `zip`: the dot product in `cosine_similarity` only reads
the common prefix of the two vectors. -/
theorem dotQ_take (a : List ℚ) : ∀ b : List ℚ,
    dotQ a b = dotQ (a.take b.length) (b.take a.length) := by
  induction a with
  | nil => intro b; simp [dotQ]
  | cons x xs ih =>
      intro b
      cases b with
      | nil => simp [dotQ]
      | cons y ys =>
          simp only [dotQ, List.zipWith_cons_cons, List.length_cons, List.take_succ_cons,
            List.sum_cons]
          rw [show (List.zipWith (fun s t => s * t) xs ys).sum = dotQ xs ys from rfl]
          rw [show (List.zipWith (fun s t => s * t) (xs.take ys.length)
            (ys.take xs.length)).sum = dotQ (xs.take ys.length) (ys.take xs.length) from rfl]
          rw [ih ys]

/-- The document returned by the C10 search scenario. -/
def rowC10 : PromptRow := ⟨1, "a", "T", "c", "", "hello", "[]", 1, false, "T0", "T0"⟩

/-- One active document with a stored 2-dimensional embedding record. -/
def dbC10 : DB := ⟨[rowC10], [], [⟨1, [5, 12], "h", "T0"⟩], 2, 1⟩

/-- An embedding service answering a 3-dimensional query vector. -/
def oracleC10 : EmbedOracle := fun _ => some [1, 0, 0]

/-- A default-like request: `limit 5`, `min_score 0.3`. -/
def payloadC10 : SemanticSearchRequest := ⟨"q", 5, 3/10⟩

theorem cosC10 : cosine_similarity [1, 0, 0] [5, 12] = 5 / 13 := by
  have h1 : normSqQ [(1 : ℚ), 0, 0] = 1 := by norm_num [normSqQ]
  have h2 : normSqQ [(5 : ℚ), 12] = 169 := by norm_num [normSqQ]
  have h3 : dotQ [(1 : ℚ), 0, 0] [5, 12] = 5 := by norm_num [dotQ]
  unfold cosine_similarity
  rw [h1, h2, h3]
  have hs1 : Real.sqrt ((1 : ℚ) : ℝ) = 1 := by
    push_cast
    exact Real.sqrt_one
  have hs2 : Real.sqrt ((169 : ℚ) : ℝ) = 13 := by
    have h169 : ((169 : ℚ) : ℝ) = (13 : ℝ) ^ 2 := by norm_num
    rw [h169, Real.sqrt_sq (by norm_num)]
  rw [hs1, hs2]
  rw [if_neg (by norm_num)]
  push_cast
  norm_num

theorem scoredC10 : searchScored [1, 0, 0] (3/10) dbC10 = [⟨rowC10, 3846 / 10000⟩] := by
  have hle : ((3/10 : ℚ) : ℝ) ≤ 5 / 13 := by
    push_cast
    norm_num
  unfold searchScored dbC10
  simp only [List.filterMap_cons, List.filterMap_nil]
  have hfind : (activePrompts ⟨[rowC10], [], [⟨1, [5, 12], "h", "T0"⟩], 2, 1⟩).find?
      (fun r => r.id == (⟨1, [5, 12], "h", "T0"⟩ : EmbeddingRow).prompt_id) = some rowC10 := rfl
  rw [hfind]
  simp only [cosC10]
  rw [if_pos hle]
  rw [round4C6]

/-- C10: `cosine_similarity` is a total function on any two rational
vectors; when the lengths differ the dot product is computed only over
the common prefix (zip truncation); and `semantic_search` never checks
vectors against `EMBED_DIM` — a stored 2-dimensional record scored
against a 3-dimensional query (neither of them 768-dimensional) still
contributes a search result. -/
theorem cosine_total_truncates_and_search_ignores_dims :
    (∀ a b : List ℚ, dotQ a b = dotQ (a.take b.length) (b.take a.length)) ∧
    semantic_search oracleC10 payloadC10 dbC10 = .ok ⟨[⟨rowC10, 3846 / 10000⟩], 1⟩ ∧
    dbC10.embeddings.map (fun e => e.embedding.length) = [2] ∧
    oracleC10 payloadC10.query = some [1, 0, 0] ∧
    ([(1 : ℚ), 0, 0].length = 3) ∧
    (2 : Nat) ≠ EMBED_DIM ∧ (3 : Nat) ≠ EMBED_DIM ∧ (2 : Nat) ≠ 3 := by
  refine ⟨dotQ_take, ?_, by decide, rfl, by decide, by decide, by decide, by decide⟩
  unfold semantic_search
  have ho : oracleC10 payloadC10.query = some [1, 0, 0] := rfl
  rw [ho]
  simp only [payloadC10]
  rw [scoredC10]
  rfl

/-! ### Claim C7 -/

/-- One of the ten active documents of the C7 scenario. -/
def mkRowC7 (i : Nat) (nm ct : String) : PromptRow :=
  ⟨i, nm, "T", "cat", "", ct, "[]", 1, false, "T0", "T0"⟩

/-- Ten active documents `p1 .. p10`. -/
def dbC7 : DB :=
  ⟨[mkRowC7 1 "p1" "c1", mkRowC7 2 "p2" "c2", mkRowC7 3 "p3" "c3", mkRowC7 4 "p4" "c4",
    mkRowC7 5 "p5" "c5", mkRowC7 6 "p6" "c6", mkRowC7 7 "p7" "c7", mkRowC7 8 "p8" "c8",
    mkRowC7 9 "p9" "c9", mkRowC7 10 "p10" "c10"], [], [], 11, 1⟩

/-- An embedding service that fails (returns `None`) for exactly the
texts of `p1`, `p2` and `p3`, and answers `[1]` for everything else. -/
def oracleC7 : EmbedOracle := fun t =>
  if t = embedText "p1" "cat" "" "c1" ∨ t = embedText "p2" "cat" "" "c2"
      ∨ t = embedText "p3" "cat" "" "c3" then
    none
  else
    some [1]

/-- C7 evaluated at the claim's input: `rebuildAll` over 10 documents with
the embedding service failing for 3 of them does not raise, but it
reports `{embedded: 10, failed: 0, total: 10}` — not `{embedded: 7,
failed: 3, total: 10}` as the spec claims — because `embed_text` swallows
the failure and `_embed_prompt` returns normally, so the `except` branch
that increments `failed` never runs for an embedding-service failure.
Only 7 embedding rows are actually written. -/
theorem rebuild_counts_at_failing_input :
    (rebuild_embeddings oracleC7 "T1" dbC7).2 = ⟨10, 0, 10⟩ ∧
    (rebuild_embeddings oracleC7 "T1" dbC7).1.embeddings.length = 7 := by
  decide
